import Mathlib

/-!
Verification development for the claude-monitor usage-analysis engine.

The Rust sources under `crates/monitor-core` and `crates/monitor-data` are
shallowly embedded below: timestamps are modelled as `Int` seconds since the
Unix epoch, `f64` quantities as `Rat`, `u64`/`u32` counters as `Nat`
(counter overflow is irrelevant for the stated properties), `HashSet<String>`
as `List String` with membership, and `HashMap<String, ModelStats>` as an
association list updated in place.  JSON values are modelled by a small
inductive `Json` type mirroring the `serde_json::Value` shapes the code
inspects (null / bool / integer number / string / array / object).
-/

namespace Monitor

/-! ## String helpers

Rust `str::contains` / `str::to_lowercase`, used by `normalize_model_name`.
The model strings handled by the code are ASCII, for which
`String.toLower` agrees with Rust's `to_lowercase`. -/

/-- Does `needle` occur as a contiguous sublist of the second argument? -/
def subListAt (needle : List Char) : List Char → Bool
  | [] => needle.isEmpty
  | c :: rest => needle.isPrefixOf (c :: rest) || subListAt needle rest

/-- Rust `haystack.contains(pat)` on strings. -/
def strContains (haystack pat : String) : Bool :=
  subListAt pat.data haystack.data

/-- Rust `str::to_lowercase`, character by character (agrees with it on the
ASCII model-name strings the code handles). -/
def strToLower (s : String) : String :=
  ⟨s.data.map Char.toLower⟩

/-! ## `normalize_model_name` (crates/monitor-core/src/models.rs) -/

/-- The Claude-4 fast-path condition of `normalize_model_name`: the
lowercased name contains one of the six `-4-` substrings. -/
def claude4Sub (lower : String) : Bool :=
  strContains lower "claude-opus-4-"
    || strContains lower "claude-sonnet-4-"
    || strContains lower "claude-haiku-4-"
    || strContains lower "sonnet-4-"
    || strContains lower "opus-4-"
    || strContains lower "haiku-4-"

/-- `normalize_model_name` from `monitor-core/src/models.rs`. -/
def normalize_model_name (model : String) : String :=
  if model = "" then ""
  else
    let lower := strToLower model
    if claude4Sub lower then lower
    else if strContains lower "opus" then
      if strContains lower "4-" then lower
      else "claude-3-opus"
    else if strContains lower "sonnet" then
      if strContains lower "4-" then lower
      else if strContains lower "3.5" || strContains lower "3-5" then "claude-3-5-sonnet"
      else "claude-3-sonnet"
    else if strContains lower "haiku" then
      if strContains lower "3.5" || strContains lower "3-5" then "claude-3-5-haiku"
      else "claude-3-haiku"
    else model

/-! ## JSON model

A small inductive mirror of `serde_json::Value`.  Numbers are modelled as
integers (`num`): every numeric field the verified code paths read
(`as_u64`, Unix-second timestamps, token counts) is an integer in the data
the claims range over. -/

inductive Json where
  | null
  | bool (b : Bool)
  | num (n : Int)
  | str (s : String)
  | arr (elems : List Json)
  | obj (fields : List (String × Json))

namespace Json

/-- `Value::get(key)` on an object: the value stored under `key`. -/
def get : Json → String → Option Json
  | obj fields, key => lookupField fields key
  | _, _ => none
where
  lookupField : List (String × Json) → String → Option Json
    | [], _ => none
    | (k, v) :: rest, key => if k = key then some v else lookupField rest key

/-- `Value::as_u64`: the value as a non-negative integer. -/
def asU64 : Json → Option Nat
  | num n => if 0 ≤ n then some n.toNat else none
  | _ => none

/-- `Value::as_str`. -/
def asStr : Json → Option String
  | str s => some s
  | _ => none

/-- `Value::as_bool`. -/
def asBool : Json → Option Bool
  | bool b => some b
  | _ => none

end Json

/-! ## `TimestampProcessor` (crates/monitor-core/src/data_processors.rs)

Only the `null` and integer-number arms are modelled exactly; the
string-format fallback chain (RFC 3339 / RFC 2822 / strftime patterns) is
not reproduced — every timestamp in the inputs considered by the claims is
a numeric Unix-seconds value, and the claims settled here do not depend on
which string formats parse. -/

namespace TimestampProcessor

/-- `TimestampProcessor::parse`, restricted to numeric timestamps. -/
def parse : Json → Option Int
  | Json.null => none
  | Json.num n => some n
  | _ => none

end TimestampProcessor

/-! ## `TokenExtractor` (crates/monitor-core/src/data_processors.rs) -/

/-- `ExtractedTokens`. -/
structure ExtractedTokens where
  input_tokens : Nat := 0
  output_tokens : Nat := 0
  cache_creation_input_tokens : Nat := 0
  cache_read_input_tokens : Nat := 0
  total_tokens : Nat := 0
deriving DecidableEq

namespace TokenExtractor

/-- `TokenExtractor::find_u64`: first alternative key holding a `u64` wins. -/
def find_u64 (source : Json) (keys : List String) : Nat :=
  match keys with
  | [] => 0
  | k :: rest =>
    match (source.get k).bind Json.asU64 with
    | some v => v
    | none => find_u64 source rest

/-- The ordered key-alias lists used by `TokenExtractor::extract`. -/
def inputKeys : List String := ["input_tokens", "inputTokens", "prompt_tokens"]

def outputKeys : List String := ["output_tokens", "outputTokens", "completion_tokens"]

def cacheCreateKeys : List String :=
  ["cache_creation_tokens", "cache_creation_input_tokens", "cacheCreationInputTokens"]

def cacheReadKeys : List String :=
  ["cache_read_input_tokens", "cache_read_tokens", "cacheReadInputTokens"]

/-- The loop body of `TokenExtractor::extract` over the ordered source list. -/
def extractLoop : List (Option Json) → ExtractedTokens
  | [] => {}
  | none :: rest => extractLoop rest
  | some source :: rest =>
    let input := find_u64 source inputKeys
    let output := find_u64 source outputKeys
    if input > 0 || output > 0 then
      let cacheCreate := find_u64 source cacheCreateKeys
      let cacheRead := find_u64 source cacheReadKeys
      { input_tokens := input
        output_tokens := output
        cache_creation_input_tokens := cacheCreate
        cache_read_input_tokens := cacheRead
        total_tokens := input + output + cacheCreate + cacheRead }
    else extractLoop rest

/-- The ordered list of source objects probed by `TokenExtractor::extract`. -/
def sourcesOf (data : Json) : List (Option Json) :=
  let isAssistant := ((data.get "type").bind Json.asStr) = some "assistant"
  let messageUsage := (data.get "message").bind (fun m => m.get "usage")
  let usage := data.get "usage"
  if isAssistant then [messageUsage, usage, some data]
  else [usage, messageUsage, some data]

/-- `TokenExtractor::extract`. -/
def extract (data : Json) : ExtractedTokens :=
  extractLoop (sourcesOf data)

end TokenExtractor

/-! ## `DataConverter::extract_model_name` (crates/monitor-core/src/data_processors.rs) -/

namespace DataConverter

/-- `DataConverter::extract_model_name`: `data.model`, then
`data.message.model`, then the `"claude-3-5-sonnet"` default. -/
def extract_model_name (data : Json) : String :=
  match (data.get "model").bind Json.asStr with
  | some s => if s ≠ "" then s else fallbackMessage data
  | none => fallbackMessage data
where
  fallbackMessage (data : Json) : String :=
    match ((data.get "message").bind (fun m => m.get "model")).bind Json.asStr with
    | some s => if s ≠ "" then s else "claude-3-5-sonnet"
    | none => "claude-3-5-sonnet"

end DataConverter

/-! ## Data model (crates/monitor-core/src/models.rs)

`f64` cost values are modelled as `Rat`; `u64`/`u32` counters as `Nat`.
Fields never read by the verified properties and always left at their
creation value by the analyzer (`id`, `burn_rate`, `projection_data`,
`burn_rate_snapshot`) are omitted from the embedding. -/

/-- `UsageEntry`. -/
structure UsageEntry where
  timestamp : Int
  input_tokens : Nat
  output_tokens : Nat
  cache_creation_tokens : Nat
  cache_read_tokens : Nat
  cost_usd : Rat
  model : String
  message_id : String
  request_id : String
deriving DecidableEq

/-- `TokenCounts`. -/
structure TokenCounts where
  input_tokens : Nat := 0
  output_tokens : Nat := 0
  cache_creation_tokens : Nat := 0
  cache_read_tokens : Nat := 0
deriving DecidableEq

/-- `TokenCounts::total_tokens`. -/
def TokenCounts.total_tokens (tc : TokenCounts) : Nat :=
  tc.input_tokens + tc.output_tokens + tc.cache_creation_tokens + tc.cache_read_tokens

/-- `ModelStats`. -/
structure ModelStats where
  input_tokens : Nat := 0
  output_tokens : Nat := 0
  cache_creation_tokens : Nat := 0
  cache_read_tokens : Nat := 0
  cost_usd : Rat := 0
  entries_count : Nat := 0
deriving DecidableEq

/-- `LimitMessage`.  The Rust struct stores RFC 3339 strings for the two
time fields; since `to_rfc3339` is an injective rendering of the instant,
the embedding keeps the instants themselves. -/
structure LimitMessage where
  limit_type : String
  timestamp : Int
  content : String
  reset_time : Option Int
deriving DecidableEq

/-- `SessionBlock` (fields relevant to the verified properties). -/
structure SessionBlock where
  start_time : Int
  end_time : Int
  entries : List UsageEntry
  token_counts : TokenCounts
  is_active : Bool
  is_gap : Bool
  actual_end_time : Option Int
  per_model_stats : List (String × ModelStats)
  models : List String
  sent_messages_count : Nat
  cost_usd : Rat
  limit_messages : List LimitMessage
deriving DecidableEq

/-! ## `SessionAnalyzer` (crates/monitor-data/src/analyzer.rs) -/

namespace SessionAnalyzer

/-- `SessionAnalyzer::session_delta` in seconds. -/
def session_delta (session_duration_hours : Nat) : Int :=
  (session_duration_hours : Int) * 3600

/-- `SessionAnalyzer::round_to_hour`: truncate a Unix timestamp down to the
start of its hour (chrono `duration_trunc(1h)` floors toward the epoch). -/
def round_to_hour (ts : Int) : Int :=
  ts - ts % 3600

/-- `SessionAnalyzer::should_create_new_block`. -/
def should_create_new_block (delta : Int) (block : SessionBlock) (entry : UsageEntry) : Bool :=
  if entry.timestamp ≥ block.end_time then true
  else
    match block.entries.getLast? with
    | some last => entry.timestamp - last.timestamp ≥ delta
    | none => false

/-- `SessionAnalyzer::create_new_block`. -/
def create_new_block (entry : UsageEntry) (delta : Int) : SessionBlock :=
  let start_time := round_to_hour entry.timestamp
  { start_time := start_time
    end_time := start_time + delta
    entries := []
    token_counts := {}
    is_active := false
    is_gap := false
    actual_end_time := none
    per_model_stats := []
    models := []
    sent_messages_count := 0
    cost_usd := 0
    limit_messages := [] }

/-- Add `entry`'s contribution to a `ModelStats` record (the `+=` block of
`add_entry_to_block`). -/
def statsAdd (s : ModelStats) (entry : UsageEntry) : ModelStats :=
  { input_tokens := s.input_tokens + entry.input_tokens
    output_tokens := s.output_tokens + entry.output_tokens
    cache_creation_tokens := s.cache_creation_tokens + entry.cache_creation_tokens
    cache_read_tokens := s.cache_read_tokens + entry.cache_read_tokens
    cost_usd := s.cost_usd + entry.cost_usd
    entries_count := s.entries_count + 1 }

/-- `block.per_model_stats.entry(model).or_default()` followed by the
accumulation: update the existing association, or append a fresh one. -/
def updateStats (stats : List (String × ModelStats)) (model : String)
    (entry : UsageEntry) : List (String × ModelStats) :=
  match stats with
  | [] => [(model, statsAdd {} entry)]
  | (k, s) :: rest =>
    if k = model then (k, statsAdd s entry) :: rest
    else (k, s) :: updateStats rest model entry

/-- `SessionAnalyzer::add_entry_to_block`. -/
def add_entry_to_block (block : SessionBlock) (entry : UsageEntry) : SessionBlock :=
  let raw_model := if entry.model = "" then "unknown" else entry.model
  let model := if raw_model = "unknown" then "unknown" else normalize_model_name raw_model
  { block with
    entries := block.entries ++ [entry]
    per_model_stats := updateStats block.per_model_stats model entry
    token_counts :=
      { input_tokens := block.token_counts.input_tokens + entry.input_tokens
        output_tokens := block.token_counts.output_tokens + entry.output_tokens
        cache_creation_tokens :=
          block.token_counts.cache_creation_tokens + entry.cache_creation_tokens
        cache_read_tokens := block.token_counts.cache_read_tokens + entry.cache_read_tokens }
    cost_usd := block.cost_usd + entry.cost_usd
    models := if block.models.contains model then block.models else block.models ++ [model]
    sent_messages_count := block.sent_messages_count + 1 }

/-- `SessionAnalyzer::finalize_block`. -/
def finalize_block (block : SessionBlock) : SessionBlock :=
  { block with
    actual_end_time := (block.entries.getLast?).map (fun e => e.timestamp)
    sent_messages_count := block.entries.length }

/-- `SessionAnalyzer::check_for_gap`. -/
def check_for_gap (last_block : SessionBlock) (next_entry : UsageEntry)
    (delta : Int) : Option SessionBlock :=
  match last_block.actual_end_time with
  | none => none
  | some actual_end =>
    if next_entry.timestamp - actual_end < delta then none
    else
      some
        { start_time := actual_end
          end_time := next_entry.timestamp
          entries := []
          token_counts := {}
          is_active := false
          is_gap := true
          actual_end_time := none
          per_model_stats := []
          models := []
          sent_messages_count := 0
          cost_usd := 0
          limit_messages := [] }

/-- `SessionAnalyzer::mark_active_blocks` (`now` is `Utc::now()` passed in
explicitly). -/
def mark_active_blocks (now : Int) (blocks : List SessionBlock) : List SessionBlock :=
  blocks.map (fun b => if !b.is_gap && b.end_time > now then { b with is_active := true } else b)

/-- The entry loop of `SessionAnalyzer::transform_to_blocks`:
`blocks` is the output accumulator, `cur` the currently open block. -/
def processEntries (delta : Int) (blocks : List SessionBlock)
    (cur : Option SessionBlock) : List UsageEntry → List SessionBlock
  | [] =>
    match cur with
    | none => blocks
    | some b => blocks ++ [finalize_block b]
  | entry :: rest =>
    let needNew :=
      match cur with
      | none => true
      | some b => should_create_new_block delta b entry
    if needNew then
      let blocks' :=
        match cur with
        | none => blocks
        | some b =>
          let fb := finalize_block b
          match check_for_gap fb entry delta with
          | some gap => blocks ++ [gap, fb]
          | none => blocks ++ [fb]
      processEntries delta blocks' (some (add_entry_to_block (create_new_block entry delta) entry)) rest
    else
      match cur with
      | none => processEntries delta blocks none rest
      | some b => processEntries delta blocks (some (add_entry_to_block b entry)) rest

/-- `SessionAnalyzer::transform_to_blocks`. -/
def transform_to_blocks (session_duration_hours : Nat) (now : Int)
    (entries : List UsageEntry) : List SessionBlock :=
  if entries = [] then []
  else
    mark_active_blocks now
      (processEntries (session_delta session_duration_hours) [] none entries)

end SessionAnalyzer

/-! ## `BurnRateCalculator` (crates/monitor-core/src/calculations.rs)

`calculate_burn_rate` is generic over the `BlockLike` trait; the embedding
abstracts a block to the four trait observations the function reads. -/

/-- `BurnRate`. -/
structure BurnRate where
  tokens_per_minute : Rat
  cost_per_hour : Rat
deriving DecidableEq

/-- The `BlockLike` observations consumed by `calculate_burn_rate`. -/
structure BlockInfo where
  is_active : Bool
  duration_minutes : Rat
  total_tokens : Nat
  cost_usd : Rat
deriving DecidableEq

namespace BurnRateCalculator

/-- `BurnRateCalculator::calculate_burn_rate`. -/
def calculate_burn_rate (block : BlockInfo) : Option BurnRate :=
  if !block.is_active then none
  else if block.duration_minutes < 1 then none
  else if block.total_tokens = 0 then none
  else
    some
      { tokens_per_minute := (block.total_tokens : Rat) / block.duration_minutes
        cost_per_hour := block.cost_usd / block.duration_minutes * 60 }

end BurnRateCalculator

/-! ## P90 estimator (crates/monitor-core/src/p90.rs)

`f64` arithmetic is modelled over `Rat`; the Rust `as u64` casts of the
non-negative quantities involved truncate toward zero, i.e. floor. -/

/-- `percentile` on a sorted slice, with linear interpolation.  Out-of-range
ranks are read through `getD _ 0`; for `0 ≤ p ≤ 100` (every call site) all
indices are in bounds.  The `as usize` casts saturate at 0 for negative
ranks, matching `Int.toNat`. -/
def percentile (sorted_data : List Rat) (p : Rat) : Rat :=
  if sorted_data = [] then 0
  else if sorted_data.length = 1 then sorted_data.getD 0 0
  else
    let rank : Rat := (p / 100) * ((sorted_data.length : Rat) - 1)
    let lo : Nat := (⌊rank⌋).toNat
    let hi : Nat := (⌈rank⌉).toNat
    if lo = hi then sorted_data.getD lo 0
    else
      let frac : Rat := rank - (lo : Rat)
      sorted_data.getD lo 0 + frac * (sorted_data.getD hi 0 - sorted_data.getD lo 0)

/-- `P90Config` (without the cache TTL, which the algorithm never reads). -/
structure P90Config where
  common_limits : List Nat
  limit_threshold : Rat
  default_min_limit : Nat
deriving DecidableEq

/-- The production `P90Config::default()` built from
`COMMON_TOKEN_LIMITS`, `LIMIT_DETECTION_THRESHOLD` and
`DEFAULT_TOKEN_LIMIT` in crates/monitor-core/src/plans.rs. -/
def P90Config.default : P90Config :=
  { common_limits := [19000, 88000, 220000, 880000]
    limit_threshold := (95 : Rat) / 100
    default_min_limit := 19000 }

/-- `f64::round` for the non-negative values rounded here: half away from
zero, i.e. `⌊x + 1/2⌋`. -/
def ratRound (x : Rat) : Int := ⌊x + 1 / 2⌋

/-- The completed-block filter closure of `calculate_p90_from_blocks`:
neither a gap nor currently active. -/
def blockCompleted (b : Json) : Bool :=
  let isGap := ((b.get "isGap").bind Json.asBool).getD false
  let isActive := ((b.get "isActive").bind Json.asBool).getD false
  !isGap && !isActive

/-- The token-count extraction closure of `calculate_p90_from_blocks`. -/
def blockTokens (b : Json) : Option Nat :=
  (b.get "totalTokens").bind Json.asU64

/-- The limit-hitting test of `calculate_p90_from_blocks`:
`tokens >= (limit as f64 * threshold) as u64` for some known limit (the
`as u64` cast of the non-negative product truncates, i.e. floors). -/
def hitsLimit (config : P90Config) (tokens : Nat) : Bool :=
  config.common_limits.any (fun limit =>
    tokens ≥ (⌊(limit : Rat) * config.limit_threshold⌋).toNat)

/-- `calculate_p90_from_blocks`.  Rust's `sort_by(partial_cmp)` is an
ascending sort; it is modelled by `insertionSort`, which produces the same
list on totally ordered values. -/
def calculate_p90_from_blocks (blocks : List Json) (config : P90Config) : Nat :=
  let completed : List Nat := (blocks.filter blockCompleted).filterMap blockTokens
  if completed = [] then config.default_min_limit
  else
    let limit_hitting : List Rat :=
      (completed.filter (hitsLimit config)).map (Nat.cast : Nat → Rat)
    let sample : List Rat :=
      if limit_hitting ≠ [] then limit_hitting.insertionSort (· ≤ ·)
      else (completed.map (Nat.cast : Nat → Rat)).insertionSort (· ≤ ·)
    let p90 : Nat := (ratRound (percentile sample 90)).toNat
    max p90 config.default_min_limit

/-! ## Record loading (crates/monitor-data/src/reader.rs)

The per-line pipeline of `process_single_file`, iterated over the already
JSON-parsed lines of all discovered files in order, with the shared dedup
set threaded through.  The pricing calculator is abstracted as a pure cost
function `pricingCost` applied to the normalised entry map the code builds
(memoization does not change its results). -/

namespace Reader

/-- The message-id fallback chain (`"message_id"`, then `"message"."id"`),
shared verbatim by `create_unique_hash` and `map_to_usage_entry`. -/
def messageIdOf (data : Json) : Option String :=
  ((data.get "message_id").bind Json.asStr).orElse
    (fun _ => ((data.get "message").bind (fun m => m.get "id")).bind Json.asStr)

/-- The request-id fallback chain (`"requestId"`, then `"request_id"`),
shared verbatim by `create_unique_hash` and `map_to_usage_entry`. -/
def requestIdOf (data : Json) : Option String :=
  ((data.get "requestId").bind Json.asStr).orElse
    (fun _ => (data.get "request_id").bind Json.asStr)

/-- `create_unique_hash`. -/
def create_unique_hash (data : Json) : Option String :=
  match messageIdOf data, requestIdOf data with
  | some mid, some rid => some (mid ++ ":" ++ rid)
  | _, _ => none

/-- The age-cutoff part of `should_process_entry`. -/
def passesTimeFilter (data : Json) (cutoff : Option Int) : Bool :=
  match cutoff with
  | none => true
  | some cutoff_ts =>
    match data.get "timestamp" with
    | none => true
    | some ts_value =>
      match TimestampProcessor.parse ts_value with
      | none => true
      | some ts => !(ts < cutoff_ts)

/-- `should_process_entry`. -/
def should_process_entry (data : Json) (cutoff : Option Int)
    (hashes : List String) : Bool :=
  if !passesTimeFilter data cutoff then false
  else
    match create_unique_hash data with
    | some h => !(hashes.contains h)
    | none => true

/-- The normalised entry map handed to the pricing calculator by
`map_to_usage_entry`. -/
def entryForPricing (data : Json) (model : String) (tokens : ExtractedTokens) : Json :=
  Json.obj
    [("model", Json.str model),
     ("input_tokens", Json.num tokens.input_tokens),
     ("output_tokens", Json.num tokens.output_tokens),
     ("cache_creation_input_tokens", Json.num tokens.cache_creation_input_tokens),
     ("cache_read_input_tokens", Json.num tokens.cache_read_input_tokens),
     ("costUSD", (data.get "costUSD").getD Json.null),
     ("cost_usd", (data.get "cost_usd").getD Json.null)]

/-- `map_to_usage_entry`, with `PricingCalculator::calculate_cost_for_entry`
abstracted as `pricingCost`. -/
def map_to_usage_entry (pricingCost : Json → Rat) (data : Json) : Option UsageEntry :=
  match data.get "timestamp" with
  | none => none
  | some ts_value =>
    match TimestampProcessor.parse ts_value with
    | none => none
    | some timestamp =>
      let tokens := TokenExtractor.extract data
      if tokens.input_tokens = 0 ∧ tokens.output_tokens = 0 then none
      else
        let model := DataConverter.extract_model_name data
        let cost_usd := pricingCost (entryForPricing data model tokens)
        let message_id := (messageIdOf data).getD ""
        let request_id := (requestIdOf data).getD "unknown"
        some
          { timestamp := timestamp
            input_tokens := tokens.input_tokens
            output_tokens := tokens.output_tokens
            cache_creation_tokens := tokens.cache_creation_input_tokens
            cache_read_tokens := tokens.cache_read_input_tokens
            cost_usd := cost_usd
            model := model
            message_id := message_id
            request_id := request_id }

/-- The per-line loop of `process_single_file`, over the concatenated
JSON-parsed lines of one loading invocation: filter via
`should_process_entry`, map via `map_to_usage_entry`, and register the
dedup hash of every retained line. -/
def processLines (pricingCost : Json → Rat) (cutoff : Option Int) :
    List Json → List String → List UsageEntry
  | [], _ => []
  | data :: rest, hashes =>
    if should_process_entry data cutoff hashes then
      match map_to_usage_entry pricingCost data with
      | some entry =>
        let hashes' :=
          match create_unique_hash data with
          | some h => h :: hashes
          | none => hashes
        entry :: processLines pricingCost cutoff rest hashes'
      | none => processLines pricingCost cutoff rest hashes
    else processLines pricingCost cutoff rest hashes

end Reader

/-! ## Limit assignment (crates/monitor-data/src/analysis.rs) -/

/-- `LimitDetection` (crates/monitor-data/src/analyzer.rs). -/
structure LimitDetection where
  limit_type : String
  timestamp : Int
  content : String
  reset_time : Option Int
deriving DecidableEq

/-- The `LimitMessage` built from a detection by `assign_limits_to_blocks`
(`to_rfc3339` rendering kept as the instant itself). -/
def LimitDetection.toMessage (d : LimitDetection) : LimitMessage :=
  { limit_type := d.limit_type
    timestamp := d.timestamp
    content := d.content
    reset_time := d.reset_time }

/-- The inner-loop body of `assign_limits_to_blocks` for one detection and
one block. -/
def attachDetection (detection : LimitDetection) (block : SessionBlock) : SessionBlock :=
  if block.is_gap then block
  else if block.start_time ≤ detection.timestamp ∧ detection.timestamp ≤ block.end_time then
    { block with limit_messages := block.limit_messages ++ [detection.toMessage] }
  else block

/-- `assign_limits_to_blocks`: outer loop over detections, inner loop over
blocks. -/
def assign_limits_to_blocks (blocks : List SessionBlock)
    (detections : List LimitDetection) : List SessionBlock :=
  detections.foldl (fun bs detection => bs.map (attachDetection detection)) blocks

/-! ## Claim-side definitions -/

/-- The interpolation rank of the claimed percentile formula:
`rank = p/100 * (n-1)`. -/
def rankOf (sorted_data : List Rat) (p : Rat) : Rat :=
  p / 100 * ((sorted_data.length : Rat) - 1)

/-- The linear-interpolation percentile formula as the spec words it:
interpolate between the elements at the floor and the ceiling of the rank. -/
def percentileSpec (sorted_data : List Rat) (p : Rat) : Rat :=
  sorted_data.getD (⌊rankOf sorted_data p⌋).toNat 0
    + (rankOf sorted_data p - (⌊rankOf sorted_data p⌋ : Rat))
      * (sorted_data.getD (⌈rankOf sorted_data p⌉).toNat 0
          - sorted_data.getD (⌊rankOf sorted_data p⌋).toNat 0)

/-! ## C3 — burn-rate nullity and formulas -/

/-- C3: `calculate_burn_rate` returns none exactly when the block is
inactive, its duration is below one minute, or its token total is zero;
otherwise it returns `total_tokens / duration_minutes` tokens per minute
and `(cost / duration_minutes) * 60` cost per hour. -/
theorem c3_burn_rate_characterization : ∀ b : BlockInfo,
    (BurnRateCalculator.calculate_burn_rate b = none ↔
      b.is_active = false ∨ b.duration_minutes < 1 ∨ b.total_tokens = 0)
  ∧ (b.is_active = true → 1 ≤ b.duration_minutes → b.total_tokens ≠ 0 →
      BurnRateCalculator.calculate_burn_rate b =
        some { tokens_per_minute := (b.total_tokens : Rat) / b.duration_minutes
               cost_per_hour := b.cost_usd / b.duration_minutes * 60 }) := by
  intro b
  unfold BurnRateCalculator.calculate_burn_rate
  constructor
  · split_ifs with h1 h2 h3 <;>
      simp_all [Bool.not_eq_true', not_lt]
  · intro hact hdur htok
    rw [hact]
    simp [not_lt.mpr hdur, htok]

/-- Witness for C3 at a concrete active block. -/
theorem c3_burn_rate_witness :
    BurnRateCalculator.calculate_burn_rate
        { is_active := true, duration_minutes := 5, total_tokens := 100, cost_usd := 2 }
      = some { tokens_per_minute := 20, cost_per_hour := 24 } := by
  have h :=
    (c3_burn_rate_characterization
        { is_active := true, duration_minutes := 5, total_tokens := 100, cost_usd := 2 }).2
      rfl (by norm_num) (by decide)
  rw [h]
  norm_num

/-! ## C6 — model-name normalisation -/

/-- C6 counterexample: `"opus-34-x"` contains none of the `-4-` fast-path
substrings and contains `"opus"`, so the claim maps it to
`"claude-3-opus"`; the code returns it unchanged because of the extra
`"4-"` guard in the opus branch. -/
theorem c6_counterexample :
    claude4Sub "opus-34-x" = false
  ∧ strContains "opus-34-x" "opus" = true
  ∧ normalize_model_name "opus-34-x" = "opus-34-x"
  ∧ normalize_model_name "opus-34-x" ≠ "claude-3-opus" := by
  decide

/-- C6 (amended): as the claim, except that in the opus and sonnet
branches an input whose lowercased form contains `"4-"` is returned
lowercased instead of being collapsed. -/
theorem c6_normalize_amended :
    (∀ s : String,
      (s = "" → normalize_model_name s = "")
    ∧ (s ≠ "" → claude4Sub (strToLower s) = true → normalize_model_name s = strToLower s)
    ∧ (s ≠ "" → claude4Sub (strToLower s) = false →
          strContains (strToLower s) "opus" = true →
          (strContains (strToLower s) "4-" = true → normalize_model_name s = strToLower s)
        ∧ (strContains (strToLower s) "4-" = false →
            normalize_model_name s = "claude-3-opus"))
    ∧ (s ≠ "" → claude4Sub (strToLower s) = false →
          strContains (strToLower s) "opus" = false →
          strContains (strToLower s) "sonnet" = true →
          (strContains (strToLower s) "4-" = true → normalize_model_name s = strToLower s)
        ∧ (strContains (strToLower s) "4-" = false →
            ((strContains (strToLower s) "3.5" || strContains (strToLower s) "3-5") = true →
                normalize_model_name s = "claude-3-5-sonnet")
          ∧ ((strContains (strToLower s) "3.5" || strContains (strToLower s) "3-5") = false →
                normalize_model_name s = "claude-3-sonnet")))
    ∧ (s ≠ "" → claude4Sub (strToLower s) = false →
          strContains (strToLower s) "opus" = false →
          strContains (strToLower s) "sonnet" = false →
          strContains (strToLower s) "haiku" = true →
          ((strContains (strToLower s) "3.5" || strContains (strToLower s) "3-5") = true →
              normalize_model_name s = "claude-3-5-haiku")
        ∧ ((strContains (strToLower s) "3.5" || strContains (strToLower s) "3-5") = false →
              normalize_model_name s = "claude-3-haiku"))
    ∧ (s ≠ "" → claude4Sub (strToLower s) = false →
          strContains (strToLower s) "opus" = false →
          strContains (strToLower s) "sonnet" = false →
          strContains (strToLower s) "haiku" = false →
          normalize_model_name s = s))
  ∧ normalize_model_name "Claude 3.5 Sonnet" = "claude-3-5-sonnet"
  ∧ normalize_model_name "claude-sonnet-4-20250514" = "claude-sonnet-4-20250514" := by
  refine ⟨fun s => ?_, by decide, by decide⟩
  refine ⟨fun h => by simp [normalize_model_name, h], ?_, ?_, ?_, ?_, ?_⟩
  · intro hne h4
    simp [normalize_model_name, hne, h4]
  · intro hne h4 hopus
    constructor <;> intro hdash <;> simp [normalize_model_name, hne, h4, hopus, hdash]
  · intro hne h4 hopus hsonnet
    refine ⟨fun hdash => ?_, fun hdash => ⟨fun h35 => ?_, fun h35 => ?_⟩⟩ <;>
      simp [normalize_model_name, hne, h4, hopus, hsonnet, hdash, *]
  · intro hne h4 hopus hsonnet hhaiku
    constructor <;> intro h35 <;>
      simp [normalize_model_name, hne, h4, hopus, hsonnet, hhaiku, h35]
  · intro hne h4 hopus hsonnet hhaiku
    simp [normalize_model_name, hne, h4, hopus, hsonnet, hhaiku]

/-- Witness for C6 (amended): the opus branch with a `"4-"` substring. -/
theorem c6_normalize_witness : normalize_model_name "Opus-34-X" = "opus-34-x" := by
  have h :=
    (((c6_normalize_amended.1 "Opus-34-X").2.2.1 (by decide) (by decide) (by decide)).1
      (by decide))
  rw [h]
  decide

/-! ## C9 — percentile helper -/

/-- C9: on a sorted non-empty list with `0 ≤ p ≤ 100`, `percentile`
computes the linear-interpolation formula, and
`percentile [1..10] 90 = 9.1`. -/
theorem c9_percentile : (∀ (l : List Rat) (p : Rat),
      l ≠ [] → List.Chain' (· ≤ ·) l → 0 ≤ p → p ≤ 100 →
      percentile l p = percentileSpec l p)
  ∧ percentile [1, 2, 3, 4, 5, 6, 7, 8, 9, 10] 90 = 91 / 10 := by
  have main : ∀ (l : List Rat) (p : Rat),
      l ≠ [] → List.Chain' (· ≤ ·) l → 0 ≤ p → p ≤ 100 →
      percentile l p = percentileSpec l p := by
    intro l p hne _hsorted hp0 _hp100
    unfold percentile
    rw [if_neg hne]
    have hlen : 1 ≤ l.length := by
      cases l with
      | nil => exact absurd rfl hne
      | cons a t => simp
    by_cases h1 : l.length = 1
    · rw [if_pos h1]
      unfold percentileSpec rankOf
      rw [h1]
      norm_num
    · rw [if_neg h1]
      have hlen2 : 2 ≤ l.length := by omega
      show (if (⌊rankOf l p⌋).toNat = (⌈rankOf l p⌉).toNat
            then l.getD (⌊rankOf l p⌋).toNat 0
            else
              l.getD (⌊rankOf l p⌋).toNat 0
                + (rankOf l p - ((⌊rankOf l p⌋).toNat : Rat))
                  * (l.getD (⌈rankOf l p⌉).toNat 0 - l.getD (⌊rankOf l p⌋).toNat 0))
          = percentileSpec l p
      have hrank0 : 0 ≤ rankOf l p := by
        apply mul_nonneg (by positivity)
        have h2 : (2 : Rat) ≤ (l.length : Rat) := by exact_mod_cast hlen2
        linarith
      have hfloor0 : 0 ≤ ⌊rankOf l p⌋ := Int.floor_nonneg.mpr hrank0
      have hcast : ((⌊rankOf l p⌋.toNat : Nat) : Rat) = ((⌊rankOf l p⌋ : Int) : Rat) := by
        exact_mod_cast congrArg (Int.cast : ℤ → ℚ) (Int.toNat_of_nonneg hfloor0)
      by_cases heq : (⌊rankOf l p⌋).toNat = (⌈rankOf l p⌉).toNat
      · rw [if_pos heq]
        unfold percentileSpec
        have hceil0 : 0 ≤ ⌈rankOf l p⌉ := le_trans hfloor0 (Int.floor_le_ceil _)
        have hfc : ⌊rankOf l p⌋ = ⌈rankOf l p⌉ := by omega
        have hint : ((⌊rankOf l p⌋ : Int) : Rat) = rankOf l p := by
          have ha := Int.le_ceil (rankOf l p)
          rw [← hfc] at ha
          exact le_antisymm (Int.floor_le _) ha
      -- the interpolation term vanishes because the rank is an integer
        rw [← heq, hint]
        ring
      · rw [if_neg heq]
        unfold percentileSpec
        rw [hcast]
  refine ⟨main, ?_⟩
  have h10 : ([1, 2, 3, 4, 5, 6, 7, 8, 9, 10] : List Rat) ≠ [] := by simp
  rw [main _ 90 h10 (by norm_num) (by norm_num) (by norm_num)]
  unfold percentileSpec
  have hr : rankOf ([1, 2, 3, 4, 5, 6, 7, 8, 9, 10] : List Rat) 90 = 81 / 10 := by
    unfold rankOf
    norm_num
  rw [hr]
  have hf : ⌊(81 / 10 : Rat)⌋ = 8 := by norm_num [Int.floor_eq_iff]
  have hc : ⌈(81 / 10 : Rat)⌉ = 9 := by norm_num [Int.ceil_eq_iff]
  rw [hf, hc]
  have e8 : ([1, 2, 3, 4, 5, 6, 7, 8, 9, 10] : List Rat).getD (Int.toNat 8) 0 = 9 := rfl
  have e9 : ([1, 2, 3, 4, 5, 6, 7, 8, 9, 10] : List Rat).getD (Int.toNat 9) 0 = 10 := rfl
  rw [e8, e9]
  norm_num [show Int.toNat 8 = 8 from rfl]

/-- Witness for C9 on the concrete sorted list `[1..10]` at `p = 90`. -/
theorem c9_percentile_witness :
    percentile [1, 2, 3, 4, 5, 6, 7, 8, 9, 10] 90 =
      percentileSpec [1, 2, 3, 4, 5, 6, 7, 8, 9, 10] 90 := by
  exact c9_percentile.1 _ 90 (by simp) (by norm_num) (by norm_num) (by norm_num)

/-! ## C8 — limit-signal attachment -/

/-- The Bool form of the attachment condition of the claim: the window is
not a gap and its closed `[start, end]` interval contains the signal's
timestamp. -/
def attachCond (b : SessionBlock) (d : LimitDetection) : Bool :=
  !b.is_gap && decide (b.start_time ≤ d.timestamp) && decide (d.timestamp ≤ b.end_time)

/-- `attachCond` ignores the `limit_messages` field. -/
theorem attachCond_msgs (b : SessionBlock) (msgs : List LimitMessage) :
    attachCond { b with limit_messages := msgs } = attachCond b := rfl

/-- `attachDetection` leaves every field but `limit_messages` unchanged and
appends the message exactly under `attachCond`. -/
theorem attachDetection_eq (d : LimitDetection) (b : SessionBlock) :
    attachDetection d b =
      { b with limit_messages :=
          b.limit_messages ++ if attachCond b d then [d.toMessage] else [] } := by
  have heta : attachCond b d = false →
      ({ b with limit_messages :=
          b.limit_messages ++ if attachCond b d then [d.toMessage] else [] } : SessionBlock)
        = b := by
    intro h
    rw [h, if_neg (by decide), List.append_nil]
  by_cases hg : b.is_gap = true
  · rw [heta (by simp [attachCond, hg])]
    simp [attachDetection, hg]
  · by_cases hin : b.start_time ≤ d.timestamp ∧ d.timestamp ≤ b.end_time
    · have hc : attachCond b d = true := by simp [attachCond, hg, hin.1, hin.2]
      rw [hc, if_pos rfl]
      simp [attachDetection, hg, hin.1, hin.2]
    · rw [heta (by
        rcases Decidable.not_and_iff_or_not.mp hin with h | h <;> simp [attachCond, hg, h])]
      simp [attachDetection, hg, hin]

/-- C8: every detected signal is attached to exactly the non-gap windows
whose closed `[start, end]` interval contains its timestamp — each window
of the output equals the input window with the messages of exactly those
signals appended (so a signal may land in zero, one, or several windows,
and gap windows never receive any). -/
theorem c8_assign_limits : ∀ (blocks : List SessionBlock) (detections : List LimitDetection),
    assign_limits_to_blocks blocks detections =
      blocks.map (fun b =>
        { b with limit_messages :=
            b.limit_messages ++
              ((detections.filter (attachCond b)).map LimitDetection.toMessage) }) := by
  intro blocks detections
  induction detections generalizing blocks with
  | nil =>
    simp only [assign_limits_to_blocks, List.foldl_nil]
    exact (List.map_id'' (fun b => by simp) blocks).symm
  | cons d ds ih =>
    show assign_limits_to_blocks (blocks.map (attachDetection d)) ds = _
    rw [ih, List.map_map]
    apply List.map_congr_left
    intro b _hb
    simp only [Function.comp_apply, attachDetection_eq, attachCond_msgs, List.filter_cons]
    by_cases hc : attachCond b d = true
    · simp [hc, List.append_assoc]
    · simp [hc]

/-! ## C4 — token-source selection -/

/-- Whether a probed source yields a nonzero input or output count via the
ordered key-alias lists (the claim's selection criterion). -/
def yieldsTokens (source : Json) : Bool :=
  TokenExtractor.find_u64 source TokenExtractor.inputKeys > 0
    || TokenExtractor.find_u64 source TokenExtractor.outputKeys > 0

/-- All four counts read from one source (the claim's "the first probed
source ... supplies all four counts"). -/
def fourCounts (source : Json) : ExtractedTokens :=
  let input := TokenExtractor.find_u64 source TokenExtractor.inputKeys
  let output := TokenExtractor.find_u64 source TokenExtractor.outputKeys
  let cacheCreate := TokenExtractor.find_u64 source TokenExtractor.cacheCreateKeys
  let cacheRead := TokenExtractor.find_u64 source TokenExtractor.cacheReadKeys
  { input_tokens := input
    output_tokens := output
    cache_creation_input_tokens := cacheCreate
    cache_read_input_tokens := cacheRead
    total_tokens := input + output + cacheCreate + cacheRead }

/-- The probe order as the claim words it. -/
def claimedOrder (data : Json) : List (Option Json) :=
  if ((data.get "type").bind Json.asStr) = some "assistant" then
    [(data.get "message").bind (fun m => m.get "usage"), data.get "usage", some data]
  else
    [data.get "usage", (data.get "message").bind (fun m => m.get "usage"), some data]

/-- The extraction behaviour the claim describes: probe the sources in
order, skip absent sources and sources with zero input and zero output,
take all four counts from the first yielding source, and return all zeros
when no source yields. -/
def extractSpec (data : Json) : ExtractedTokens :=
  match ((claimedOrder data).filterMap id).find? yieldsTokens with
  | some source => fourCounts source
  | none => {}

/-- `extractLoop` is the first-yielding-source search. -/
theorem extractLoop_eq_find (sources : List (Option Json)) :
    TokenExtractor.extractLoop sources =
      match (sources.filterMap id).find? yieldsTokens with
      | some source => fourCounts source
      | none => {} := by
  induction sources with
  | nil => rfl
  | cons s rest ih =>
    cases s with
    | none => simpa [TokenExtractor.extractLoop] using ih
    | some source =>
      have hfm : List.filterMap id (some source :: rest) = source :: List.filterMap id rest := by
        simp
      rw [hfm]
      by_cases hy : yieldsTokens source = true
      · rw [List.find?_cons_of_pos _ hy]
        simp only [TokenExtractor.extractLoop]
        rw [if_pos (by simpa [yieldsTokens] using hy)]
        rfl
      · rw [List.find?_cons_of_neg _ hy]
        simp only [TokenExtractor.extractLoop]
        rw [if_neg (by simpa [yieldsTokens] using hy)]
        exact ih

/-- C4: the extractor probes `message.usage`, `usage`, then the record for
assistant records and `usage`, `message.usage`, then the record otherwise;
the first source with a nonzero input or output count supplies all four
counts, zero/zero sources are skipped even when they carry cache counts,
no match yields all zeros; and scenario C returns `input_tokens = 300`. -/
theorem c4_token_extraction :
    (∀ data : Json, TokenExtractor.extract data = extractSpec data)
  ∧ (TokenExtractor.extract
        (Json.obj
          [("type", Json.str "assistant"),
           ("message", Json.obj [("usage", Json.obj [("input_tokens", Json.num 300)])]),
           ("usage", Json.obj [("input_tokens", Json.num 999)])])).input_tokens = 300 := by
  constructor
  · intro data
    have horder : TokenExtractor.sourcesOf data = claimedOrder data := rfl
    unfold TokenExtractor.extract extractSpec
    rw [horder, extractLoop_eq_find]
  · decide

/-! ## C5 — P90 estimation -/

/-- A window reduced to the claim's observation triple
`(is_gap, is_active, total_tokens)`, encoded as the JSON object shape the
estimator reads. -/
def encodeBlock (w : Bool × Bool × Nat) : Json :=
  Json.obj
    [("totalTokens", Json.num (w.2.2 : Int)),
     ("isGap", Json.bool w.1),
     ("isActive", Json.bool w.2.1)]

/-- The limit-hitting test as the claim words it: token count at least
`threshold * step` for some known step. -/
def hitsLimitSpec (config : P90Config) (t : Nat) : Bool :=
  config.common_limits.any (fun step =>
    decide ((step : Rat) * config.limit_threshold ≤ (t : Rat)))

/-- The estimation algorithm as the claim words it: drop gap and active
windows, return the floor on an empty remainder, sample the windows with
`tokens ≥ threshold * step` for some known step (falling back to all
remaining windows), take the interpolated 90th percentile of the sorted
sample, and clamp from below by the floor. -/
def p90Spec (ws : List (Bool × Bool × Nat)) (config : P90Config) : Nat :=
  let remaining := (ws.filter (fun w => !w.1 && !w.2.1)).map (fun w => w.2.2)
  if remaining = [] then config.default_min_limit
  else
    let limitHitting := remaining.filter (hitsLimitSpec config)
    let sample := if limitHitting = [] then remaining else limitHitting
    let sorted := (sample.map (Nat.cast : Nat → Rat)).insertionSort (· ≤ ·)
    max ((ratRound (percentile sorted 90)).toNat) config.default_min_limit

theorem blockCompleted_encode (w : Bool × Bool × Nat) :
    blockCompleted (encodeBlock w) = (!w.1 && !w.2.1) := rfl

theorem blockTokens_encode (w : Bool × Bool × Nat) :
    blockTokens (encodeBlock w) = some w.2.2 := by
  show (if (0 : Int) ≤ (w.2.2 : Int) then some ((w.2.2 : Int)).toNat else none) = some w.2.2
  rw [if_pos (Int.natCast_nonneg _), Int.toNat_natCast]

/-- The completed-token extraction on encoded windows is the claim's
filter-and-project. -/
theorem completed_encode (ws : List (Bool × Bool × Nat)) :
    ((ws.map encodeBlock).filter blockCompleted).filterMap blockTokens
      = (ws.filter (fun w => !w.1 && !w.2.1)).map (fun w => w.2.2) := by
  induction ws with
  | nil => rfl
  | cons w rest ih =>
    simp only [List.map_cons, List.filter_cons, blockCompleted_encode]
    by_cases hw : (!w.1 && !w.2.1) = true
    · rw [if_pos hw, if_pos hw]
      simp only [List.filterMap_cons, blockTokens_encode, List.map_cons]
      rw [ih]
    · rw [if_neg hw, if_neg hw]
      exact ih

theorem list_any_congr {α : Type} (l : List α) (p q : α → Bool)
    (h : ∀ x ∈ l, p x = q x) : l.any p = l.any q := by
  induction l with
  | nil => rfl
  | cons a t ih =>
    simp only [List.any_cons, h a (List.mem_cons_self a t)]
    rw [ih (fun x hx => h x (List.mem_cons_of_mem _ hx))]

/-- When every `step * threshold` product is an integer (true of the
production configuration), the code's floored `as u64` comparison agrees
with the claim's exact comparison. -/
theorem hitsLimit_eq_spec (config : P90Config)
    (hint : ∀ step ∈ config.common_limits,
      ((⌊(step : Rat) * config.limit_threshold⌋ : Int) : Rat)
        = (step : Rat) * config.limit_threshold)
    (t : Nat) : hitsLimit config t = hitsLimitSpec config t := by
  unfold hitsLimit hitsLimitSpec
  apply list_any_congr
  intro step hstep
  have h1 : ((⌊(step : Rat) * config.limit_threshold⌋).toNat ≤ t
      ↔ (step : Rat) * config.limit_threshold ≤ (t : Rat)) := by
    rw [Int.toNat_le]
    constructor
    · intro h
      rw [← hint step hstep]
      exact_mod_cast h
    · intro h
      rw [← hint step hstep] at h
      exact_mod_cast h
  exact decide_eq_decide.mpr (ge_iff_le.trans h1)

/-- C5: the estimator drops gap and active windows, returns the floor when
none remain, prefers the limit-hitting sample with fallback to all
remaining windows, takes the interpolated 90th percentile of the sorted
sample clamped by the floor; and ten 84,000-token windows against the
88,000 step at threshold 0.95 yield exactly 84000. -/
theorem c5_p90_estimator :
    (∀ (ws : List (Bool × Bool × Nat)) (config : P90Config),
      (∀ step ∈ config.common_limits,
        ((⌊(step : Rat) * config.limit_threshold⌋ : Int) : Rat)
          = (step : Rat) * config.limit_threshold) →
      calculate_p90_from_blocks (ws.map encodeBlock) config = p90Spec ws config)
  ∧ calculate_p90_from_blocks
      (List.replicate 10 (encodeBlock (false, false, 84000))) P90Config.default = 84000 := by
  have main : ∀ (ws : List (Bool × Bool × Nat)) (config : P90Config),
      (∀ step ∈ config.common_limits,
        ((⌊(step : Rat) * config.limit_threshold⌋ : Int) : Rat)
          = (step : Rat) * config.limit_threshold) →
      calculate_p90_from_blocks (ws.map encodeBlock) config = p90Spec ws config := by
    intro ws config hint
    simp only [calculate_p90_from_blocks, p90Spec]
    rw [completed_encode]
    by_cases hrem :
        (ws.filter (fun w => !w.1 && !w.2.1)).map (fun w => w.2.2) = []
    · rw [if_pos hrem, if_pos hrem]
    · rw [if_neg hrem, if_neg hrem]
      have hfilter :
          ((ws.filter (fun w => !w.1 && !w.2.1)).map (fun w => w.2.2)).filter
              (hitsLimit config)
            = ((ws.filter (fun w => !w.1 && !w.2.1)).map (fun w => w.2.2)).filter
              (hitsLimitSpec config) :=
        List.filter_congr (fun t _ => hitsLimit_eq_spec config hint t)
      rw [hfilter]
      by_cases hlh :
          ((ws.filter (fun w => !w.1 && !w.2.1)).map (fun w => w.2.2)).filter
              (hitsLimitSpec config) = []
      · rw [if_pos hlh, hlh]
        rw [if_neg (by simp)]
      · rw [if_neg hlh]
        rw [if_pos (by simpa [List.map_eq_nil_iff] using hlh)]
  refine ⟨main, ?_⟩
  have hdef : ∀ step ∈ P90Config.default.common_limits,
      ((⌊(step : Rat) * P90Config.default.limit_threshold⌋ : Int) : Rat)
        = (step : Rat) * P90Config.default.limit_threshold := by
    intro step hstep
    unfold P90Config.default at hstep ⊢
    fin_cases hstep <;> norm_num [Int.floor_eq_iff]
  have hrepl : List.replicate 10 (encodeBlock (false, false, 84000))
      = (List.replicate 10 ((false, false, 84000) : Bool × Bool × Nat)).map encodeBlock := by
    rw [List.map_replicate]
  rw [hrepl, main _ _ hdef]
  simp only [p90Spec]
  have hrem : ((List.replicate 10 ((false, false, 84000) : Bool × Bool × Nat)).filter
        (fun w => !w.1 && !w.2.1)).map (fun w => w.2.2)
      = List.replicate 10 84000 := by decide
  rw [hrem]
  rw [if_neg (by decide)]
  have hhits : (List.replicate (10:Nat) (84000:Nat)).filter (hitsLimitSpec P90Config.default)
      = List.replicate 10 84000 := by
    apply List.filter_eq_self.mpr
    intro t ht
    rw [List.eq_of_mem_replicate ht]
    unfold hitsLimitSpec P90Config.default
    simp only [List.any_cons, List.any_nil, Bool.or_eq_true, decide_eq_true_eq]
    left
    norm_num
  rw [hhits]
  rw [if_neg (by decide)]
  have hsorted : ((List.replicate (10:Nat) (84000:Nat)).map
        (Nat.cast : Nat → Rat)).insertionSort (· ≤ ·)
      = List.replicate 10 ((84000 : Nat) : Rat) := by
    rw [List.map_replicate]
    exact List.Sorted.insertionSort_eq (List.pairwise_replicate.mpr (Or.inr le_rfl))
  rw [hsorted]
  have hperc : percentile (List.replicate 10 ((84000 : Nat) : Rat)) 90 = 84000 := by
    simp only [percentile]
    rw [if_neg (by decide), if_neg (by decide)]
    have hr : (90 : Rat) / 100 * (((List.replicate 10 ((84000 : Nat) : Rat)).length : Rat) - 1)
        = 81 / 10 := by
      rw [List.length_replicate]
      norm_num
    rw [hr]
    have hf : ⌊(81 / 10 : Rat)⌋ = 8 := by norm_num [Int.floor_eq_iff]
    have hc : ⌈(81 / 10 : Rat)⌉ = 9 := by norm_num [Int.ceil_eq_iff]
    rw [hf, hc]
    rw [if_neg (by decide)]
    have e8 : (List.replicate 10 ((84000 : Nat) : Rat)).getD (Int.toNat 8) 0
        = ((84000 : Nat) : Rat) := rfl
    have e9 : (List.replicate 10 ((84000 : Nat) : Rat)).getD (Int.toNat 9) 0
        = ((84000 : Nat) : Rat) := rfl
    rw [e8, e9]
    push_cast
    ring
  rw [hperc]
  have hround : ratRound 84000 = 84000 := by
    unfold ratRound
    norm_num [Int.floor_eq_iff]
  rw [hround]
  decide

/-- Witness for C5: the refinement applied at the production configuration
and scenario E's window collection, with the integrality hypothesis
discharged concretely. -/
theorem c5_p90_witness :
    calculate_p90_from_blocks
        ((List.replicate 10 ((false, false, 84000) : Bool × Bool × Nat)).map encodeBlock)
        P90Config.default
      = p90Spec (List.replicate 10 ((false, false, 84000) : Bool × Bool × Nat))
        P90Config.default := by
  apply c5_p90_estimator.1
  intro step hstep
  unfold P90Config.default at hstep ⊢
  fin_cases hstep <;> norm_num [Int.floor_eq_iff]

/-! ## C7 and C10 — deduplication -/

/-- The one-step unfolding of `processLines`. -/
theorem processLines_cons (pricingCost : Json → Rat) (cutoff : Option Int)
    (d : Json) (rest : List Json) (hashes : List String) :
    Reader.processLines pricingCost cutoff (d :: rest) hashes =
      if Reader.should_process_entry d cutoff hashes then
        match Reader.map_to_usage_entry pricingCost d with
        | some entry =>
          entry :: Reader.processLines pricingCost cutoff rest
            (match Reader.create_unique_hash d with
             | some h => h :: hashes
             | none => hashes)
        | none => Reader.processLines pricingCost cutoff rest hashes
      else Reader.processLines pricingCost cutoff rest hashes := rfl

/-- A line mapped to a retained record carries the record's id fields
through the shared fallback chains. -/
theorem retained_entry_ids (pricingCost : Json → Rat) (data : Json) (e : UsageEntry)
    (h : Reader.map_to_usage_entry pricingCost data = some e) :
    e.message_id = (Reader.messageIdOf data).getD ""
      ∧ e.request_id = (Reader.requestIdOf data).getD "unknown" := by
  simp only [Reader.map_to_usage_entry] at h
  split at h
  · exact absurd h (by simp)
  · split at h
    · exact absurd h (by simp)
    · split at h
      · exact absurd h (by simp)
      · rw [← Option.some.inj h]
        exact ⟨rfl, rfl⟩

/-- A retained record with a non-default message id and request id comes
from a line whose dedup key is exactly `message_id:request_id`. -/
theorem retained_key (pricingCost : Json → Rat) (data : Json) (e : UsageEntry)
    (h : Reader.map_to_usage_entry pricingCost data = some e)
    (hm : e.message_id ≠ "") (hr : e.request_id ≠ "unknown") :
    Reader.create_unique_hash data = some (e.message_id ++ ":" ++ e.request_id) := by
  obtain ⟨h1, h2⟩ := retained_entry_ids pricingCost data e h
  unfold Reader.create_unique_hash
  cases hmid : Reader.messageIdOf data with
  | none =>
    rw [hmid] at h1
    exact absurd h1 hm
  | some x =>
    cases hrid : Reader.requestIdOf data with
    | none =>
      rw [hrid] at h2
      exact absurd h2 hr
    | some y =>
      rw [hmid] at h1
      rw [hrid] at h2
      simp [h1, h2]

/-- Once a key is in the seen set, no line of the remaining stream yields a
retained record carrying that key's ids. -/
theorem no_retained_after_seen (pricingCost : Json → Rat) (cutoff : Option Int)
    (m r : String) (hm : m ≠ "") (hr : r ≠ "unknown") :
    ∀ (lines : List Json) (hashes : List String), (m ++ ":" ++ r) ∈ hashes →
    (Reader.processLines pricingCost cutoff lines hashes).filter
        (fun e => e.message_id == m && e.request_id == r) = [] := by
  intro lines
  induction lines with
  | nil => intro hashes _; rfl
  | cons d rest ih =>
    intro hashes hmem
    rw [processLines_cons]
    by_cases hsp : Reader.should_process_entry d cutoff hashes = true
    · rw [if_pos hsp]
      cases hmap : Reader.map_to_usage_entry pricingCost d with
      | none => exact ih hashes hmem
      | some e =>
        have hpe : (e.message_id == m && e.request_id == r) = false := by
          by_contra hpe
          rw [Bool.not_eq_false, Bool.and_eq_true, beq_iff_eq, beq_iff_eq] at hpe
          have hkey := retained_key pricingCost d e hmap
            (by rw [hpe.1]; exact hm) (by rw [hpe.2]; exact hr)
          rw [hpe.1, hpe.2] at hkey
          have hfalse : Reader.should_process_entry d cutoff hashes = false := by
            unfold Reader.should_process_entry
            by_cases hpt : Reader.passesTimeFilter d cutoff = true
            · simp [hpt, hkey, hmem]
            · rw [Bool.not_eq_true] at hpt
              simp [hpt]
          rw [hfalse] at hsp
          exact absurd hsp (by decide)
        simp only [List.filter_cons, hpe]
        rw [if_neg (by decide)]
        cases hkey2 : Reader.create_unique_hash d with
        | none => exact ih hashes hmem
        | some k => exact ih (k :: hashes) (List.mem_cons_of_mem _ hmem)
    · rw [if_neg hsp]
      exact ih hashes hmem

/-- C7 counterexample: two lines that both resolve to the dedup key
`"m:r"` and carry a valid timestamp, but no token counts, produce zero
retained records — not exactly one. -/
theorem c7_counterexample :
    Reader.create_unique_hash
        (Json.obj [("timestamp", Json.num 100),
                   ("message_id", Json.str "m"), ("requestId", Json.str "r")])
      = some "m:r"
  ∧ Reader.processLines (fun _ => 0) none
      [Json.obj [("timestamp", Json.num 100),
                 ("message_id", Json.str "m"), ("requestId", Json.str "r")],
       Json.obj [("timestamp", Json.num 100),
                 ("message_id", Json.str "m"), ("requestId", Json.str "r")]]
      [] = [] := by
  decide

/-- C7 (amended): within one loading invocation, at most one retained
record carries any given resolvable dedup key — once a line with the key
is retained, every later line resolving to the same key is dropped. -/
theorem c7_dedup_amended : ∀ (pricingCost : Json → Rat) (cutoff : Option Int)
    (lines : List Json) (hashes : List String) (m r : String),
    m ≠ "" → r ≠ "unknown" →
    ((Reader.processLines pricingCost cutoff lines hashes).filter
        (fun e => e.message_id == m && e.request_id == r)).length ≤ 1 := by
  intro pricingCost cutoff lines hashes m r hm hr
  induction lines generalizing hashes with
  | nil => simp [Reader.processLines]
  | cons d rest ih =>
    rw [processLines_cons]
    by_cases hsp : Reader.should_process_entry d cutoff hashes = true
    · rw [if_pos hsp]
      cases hmap : Reader.map_to_usage_entry pricingCost d with
      | none => exact ih hashes
      | some e =>
        by_cases hpe : (e.message_id == m && e.request_id == r) = true
        · rw [Bool.and_eq_true, beq_iff_eq, beq_iff_eq] at hpe
          have hkey := retained_key pricingCost d e hmap
            (by rw [hpe.1]; exact hm) (by rw [hpe.2]; exact hr)
          rw [hpe.1, hpe.2] at hkey
          rw [hkey]
          have hrest := no_retained_after_seen pricingCost cutoff m r hm hr rest
            ((m ++ ":" ++ r) :: hashes) (List.mem_cons_self _ _)
          simp [List.filter_cons, hpe.1, hpe.2, hrest]
        · rw [Bool.not_eq_true] at hpe
          have hfilter : ∀ hs : List String,
              (Reader.processLines pricingCost cutoff rest hs).filter
                  (fun e => e.message_id == m && e.request_id == r)
                = ((e :: Reader.processLines pricingCost cutoff rest hs).filter
                  (fun e => e.message_id == m && e.request_id == r)) := by
            intro hs
            simp [List.filter_cons, hpe]
          cases hkey2 : Reader.create_unique_hash d with
          | none =>
            rw [← hfilter hashes]
            exact ih hashes
          | some k =>
            rw [← hfilter (k :: hashes)]
            exact ih (k :: hashes)
    · rw [if_neg hsp]
      exact ih hashes

/-- Witness for C7 (amended): a duplicated token-carrying line yields at
most one record for its key. -/
theorem c7_dedup_witness :
    ((Reader.processLines (fun _ => 0) none
        [Json.obj [("timestamp", Json.num 100), ("input_tokens", Json.num 7),
                   ("message_id", Json.str "m"), ("requestId", Json.str "r")],
         Json.obj [("timestamp", Json.num 100), ("input_tokens", Json.num 7),
                   ("message_id", Json.str "m"), ("requestId", Json.str "r")]]
        []).filter (fun e => e.message_id == "m" && e.request_id == "r")).length ≤ 1 := by
  exact c7_dedup_amended (fun _ => 0) none _ [] "m" "r" (by decide) (by decide)

/-- C10: a line with no resolvable dedup key is never dropped as a
duplicate — `n` identical copies that pass the time filter and map to a
record each yield a separate retained record. -/
theorem c10_no_key_no_dedup : ∀ (pricingCost : Json → Rat) (cutoff : Option Int)
    (d : Json) (e : UsageEntry) (hashes : List String) (n : Nat),
    Reader.create_unique_hash d = none →
    Reader.passesTimeFilter d cutoff = true →
    Reader.map_to_usage_entry pricingCost d = some e →
    Reader.processLines pricingCost cutoff (List.replicate n d) hashes
      = List.replicate n e := by
  intro pricingCost cutoff d e hashes n hkey htime hmap
  induction n generalizing hashes with
  | zero => rfl
  | succ k ih =>
    rw [List.replicate_succ, List.replicate_succ, processLines_cons]
    have hsp : Reader.should_process_entry d cutoff hashes = true := by
      unfold Reader.should_process_entry
      simp [htime, hkey]
    rw [if_pos hsp]
    simp only [hmap, hkey]
    rw [ih hashes]

/-- Witness for C10: three copies of a keyless line each yield a record. -/
theorem c10_witness :
    Reader.processLines (fun _ => 0) none
        (List.replicate 3 (Json.obj [("timestamp", Json.num 0), ("input_tokens", Json.num 5)]))
        []
      = List.replicate 3
          { timestamp := 0, input_tokens := 5, output_tokens := 0,
            cache_creation_tokens := 0, cache_read_tokens := 0, cost_usd := 0,
            model := "claude-3-5-sonnet", message_id := "", request_id := "unknown" } := by
  apply c10_no_key_no_dedup
  · decide
  · rfl
  · decide

/-! ## C2 — non-gap window invariants -/

/-- Sum of one `ModelStats` projection across the per-model breakdown. -/
def statsSum (f : ModelStats → Nat) (stats : List (String × ModelStats)) : Nat :=
  (stats.map (fun p => f p.2)).sum

/-- The claimed invariant of a finished non-gap window: nominal width
`delta`, `actual_end ≤ end`, and aggregate counts equal to the per-model
sums. -/
def BlockOk (delta : Int) (b : SessionBlock) : Prop :=
  b.end_time = b.start_time + delta
  ∧ (∀ t, b.actual_end_time = some t → t ≤ b.end_time)
  ∧ b.token_counts.input_tokens = statsSum ModelStats.input_tokens b.per_model_stats
  ∧ b.token_counts.output_tokens = statsSum ModelStats.output_tokens b.per_model_stats
  ∧ b.token_counts.cache_creation_tokens
      = statsSum ModelStats.cache_creation_tokens b.per_model_stats
  ∧ b.token_counts.cache_read_tokens
      = statsSum ModelStats.cache_read_tokens b.per_model_stats

/-- What every block of the output list satisfies (gap blocks vacuously). -/
def ResultOk (delta : Int) (b : SessionBlock) : Prop :=
  b.is_gap = false → BlockOk delta b

/-- Invariant of the currently open block during the entry loop: every
accepted entry sits strictly before the nominal end. -/
def OpenOk (delta : Int) (b : SessionBlock) : Prop :=
  b.end_time = b.start_time + delta
  ∧ (∀ e ∈ b.entries, e.timestamp < b.end_time)
  ∧ b.token_counts.input_tokens = statsSum ModelStats.input_tokens b.per_model_stats
  ∧ b.token_counts.output_tokens = statsSum ModelStats.output_tokens b.per_model_stats
  ∧ b.token_counts.cache_creation_tokens
      = statsSum ModelStats.cache_creation_tokens b.per_model_stats
  ∧ b.token_counts.cache_read_tokens
      = statsSum ModelStats.cache_read_tokens b.per_model_stats

theorem statsSum_updateStats (f : ModelStats → Nat) (g : UsageEntry → Nat)
    (hf : ∀ s e, f (SessionAnalyzer.statsAdd s e) = f s + g e) (hz : f {} = 0)
    (l : List (String × ModelStats)) (m : String) (e : UsageEntry) :
    statsSum f (SessionAnalyzer.updateStats l m e) = statsSum f l + g e := by
  induction l with
  | nil => simp [SessionAnalyzer.updateStats, statsSum, hf, hz]
  | cons p rest ih =>
    obtain ⟨k, s⟩ := p
    by_cases hk : k = m
    · simp only [SessionAnalyzer.updateStats, if_pos hk, statsSum, List.map_cons, List.sum_cons,
        hf]
      omega
    · simp only [SessionAnalyzer.updateStats, if_neg hk, statsSum, List.map_cons, List.sum_cons]
      simp only [statsSum] at ih
      omega

theorem add_entry_OpenOk (delta : Int) (b : SessionBlock) (e : UsageEntry)
    (hb : OpenOk delta b) (hlt : e.timestamp < b.end_time) :
    OpenOk delta (SessionAnalyzer.add_entry_to_block b e) := by
  obtain ⟨hend, hents, h1, h2, h3, h4⟩ := hb
  refine ⟨hend, ?_, ?_, ?_, ?_, ?_⟩
  · intro x hx
    rcases List.mem_append.mp hx with hx | hx
    · exact hents x hx
    · rw [List.mem_singleton.mp hx]
      exact hlt
  · show b.token_counts.input_tokens + e.input_tokens = statsSum _ (SessionAnalyzer.updateStats _ _ _)
    rw [statsSum_updateStats ModelStats.input_tokens UsageEntry.input_tokens
      (fun _ _ => rfl) rfl, h1]
  · show b.token_counts.output_tokens + e.output_tokens = statsSum _ (SessionAnalyzer.updateStats _ _ _)
    rw [statsSum_updateStats ModelStats.output_tokens UsageEntry.output_tokens
      (fun _ _ => rfl) rfl, h2]
  · show b.token_counts.cache_creation_tokens + e.cache_creation_tokens
      = statsSum _ (SessionAnalyzer.updateStats _ _ _)
    rw [statsSum_updateStats ModelStats.cache_creation_tokens UsageEntry.cache_creation_tokens
      (fun _ _ => rfl) rfl, h3]
  · show b.token_counts.cache_read_tokens + e.cache_read_tokens
      = statsSum _ (SessionAnalyzer.updateStats _ _ _)
    rw [statsSum_updateStats ModelStats.cache_read_tokens UsageEntry.cache_read_tokens
      (fun _ _ => rfl) rfl, h4]

/-- An entry always lands strictly inside the freshly opened hour-anchored
window (the window is at least one hour wide). -/
theorem entry_lt_new_end (delta : Int) (hdelta : (3600 : Int) ≤ delta) (e : UsageEntry) :
    e.timestamp < (SessionAnalyzer.create_new_block e delta).end_time := by
  show e.timestamp < SessionAnalyzer.round_to_hour e.timestamp + delta
  unfold SessionAnalyzer.round_to_hour
  have hmod : e.timestamp % 3600 < 3600 := Int.emod_lt_of_pos _ (by norm_num)
  omega

theorem create_add_OpenOk (delta : Int) (hdelta : (3600 : Int) ≤ delta) (e : UsageEntry) :
    OpenOk delta
      (SessionAnalyzer.add_entry_to_block (SessionAnalyzer.create_new_block e delta) e) := by
  refine add_entry_OpenOk delta _ e ⟨rfl, ?_, rfl, rfl, rfl, rfl⟩
    (entry_lt_new_end delta hdelta e)
  intro x hx
  simp [SessionAnalyzer.create_new_block] at hx

theorem finalize_BlockOk (delta : Int) (b : SessionBlock) (hb : OpenOk delta b) :
    BlockOk delta (SessionAnalyzer.finalize_block b) := by
  obtain ⟨hend, hents, h1, h2, h3, h4⟩ := hb
  refine ⟨hend, ?_, h1, h2, h3, h4⟩
  intro t ht
  show t ≤ b.end_time
  have : (b.entries.getLast?).map (fun e => e.timestamp) = some t := ht
  cases hlast : b.entries.getLast? with
  | none => rw [hlast] at this; exact absurd this (by simp)
  | some x =>
    rw [hlast] at this
    have hx : x ∈ b.entries := List.mem_of_mem_getLast? hlast
    have := Option.some.inj this
    rw [← this]
    exact le_of_lt (hents x hx)

theorem check_for_gap_is_gap (b : SessionBlock) (e : UsageEntry) (delta : Int)
    (g : SessionBlock) (h : SessionAnalyzer.check_for_gap b e delta = some g) :
    g.is_gap = true := by
  unfold SessionAnalyzer.check_for_gap at h
  split at h
  · exact absurd h (by simp)
  · split at h
    · exact absurd h (by simp)
    · rw [← Option.some.inj h]

theorem should_false_lt (delta : Int) (b : SessionBlock) (e : UsageEntry)
    (h : SessionAnalyzer.should_create_new_block delta b e = false) :
    e.timestamp < b.end_time := by
  unfold SessionAnalyzer.should_create_new_block at h
  by_cases hge : e.timestamp ≥ b.end_time
  · rw [if_pos hge] at h
    exact absurd h (by decide)
  · exact lt_of_not_ge hge

/-- The entry loop only emits blocks satisfying the invariant. -/
theorem processEntries_ok (delta : Int) (hdelta : (3600 : Int) ≤ delta) :
    ∀ (entries : List UsageEntry) (blocks : List SessionBlock) (cur : Option SessionBlock),
    (∀ b ∈ blocks, ResultOk delta b) →
    (∀ b, cur = some b → OpenOk delta b) →
    ∀ b ∈ SessionAnalyzer.processEntries delta blocks cur entries, ResultOk delta b := by
  intro entries
  induction entries with
  | nil =>
    intro blocks cur h1 h2 b hmem
    cases cur with
    | none => exact h1 b hmem
    | some c =>
      simp only [SessionAnalyzer.processEntries] at hmem
      rcases List.mem_append.mp hmem with hmem | hmem
      · exact h1 b hmem
      · rw [List.mem_singleton.mp hmem]
        exact fun _ => finalize_BlockOk delta c (h2 c rfl)
  | cons e rest ih =>
    intro blocks cur h1 h2
    cases cur with
    | none =>
      simp only [SessionAnalyzer.processEntries]
      rw [if_pos trivial]
      apply ih blocks _ h1
      intro b hb
      rw [← Option.some.inj hb]
      exact create_add_OpenOk delta hdelta e
    | some c =>
      simp only [SessionAnalyzer.processEntries]
      by_cases hnew : SessionAnalyzer.should_create_new_block delta c e = true
      · rw [if_pos hnew]
        cases hgap : SessionAnalyzer.check_for_gap (SessionAnalyzer.finalize_block c) e delta with
        | none =>
          apply ih
          · intro b hb
            rcases List.mem_append.mp hb with hb | hb
            · exact h1 b hb
            · rw [List.mem_singleton.mp hb]
              exact fun _ => finalize_BlockOk delta c (h2 c rfl)
          · intro b hb
            rw [← Option.some.inj hb]
            exact create_add_OpenOk delta hdelta e
        | some gap =>
          apply ih
          · intro b hb
            rcases List.mem_append.mp hb with hb | hb
            · exact h1 b hb
            · rcases List.mem_cons.mp hb with hb | hb
              · rw [hb]
                intro hfalse
                rw [check_for_gap_is_gap _ _ _ _ hgap] at hfalse
                exact absurd hfalse (by decide)
              · rw [List.mem_singleton.mp hb]
                exact fun _ => finalize_BlockOk delta c (h2 c rfl)
          · intro b hb
            rw [← Option.some.inj hb]
            exact create_add_OpenOk delta hdelta e
      · rw [if_neg hnew]
        apply ih blocks _ h1
        intro b hb
        rw [← Option.some.inj hb]
        exact add_entry_OpenOk delta c e (h2 c rfl)
          (should_false_lt delta c e (Bool.not_eq_true _ |>.mp hnew))

/-- Activity marking changes only the `is_active` flag. -/
theorem mark_active_ResultOk (now delta : Int) (blocks : List SessionBlock)
    (h : ∀ b ∈ blocks, ResultOk delta b) :
    ∀ b ∈ SessionAnalyzer.mark_active_blocks now blocks, ResultOk delta b := by
  intro b hb
  obtain ⟨b0, hb0, hbeq⟩ := List.mem_map.mp hb
  have hres := h b0 hb0
  by_cases hcond : (!b0.is_gap && decide (b0.end_time > now)) = true
  · rw [if_pos hcond] at hbeq
    rw [← hbeq]
    intro hg
    exact hres hg
  · rw [if_neg hcond] at hbeq
    rw [← hbeq]
    exact hres

/-- C2: every non-gap window produced by `transform_to_blocks` (5-hour
width) from a timestamp-sorted entry list has `end = start + 5h`,
`actual_end ≤ end` when present, and aggregate token counts equal to the
per-model sums. -/
theorem c2_window_invariants : ∀ (entries : List UsageEntry) (now : Int),
    List.Chain' (fun a b => a.timestamp ≤ b.timestamp) entries →
    ∀ b ∈ SessionAnalyzer.transform_to_blocks 5 now entries, b.is_gap = false →
    (b.end_time = b.start_time + SessionAnalyzer.session_delta 5
      ∧ (∀ t, b.actual_end_time = some t → t ≤ b.end_time)
      ∧ b.token_counts.input_tokens = statsSum ModelStats.input_tokens b.per_model_stats
      ∧ b.token_counts.output_tokens = statsSum ModelStats.output_tokens b.per_model_stats
      ∧ b.token_counts.cache_creation_tokens
          = statsSum ModelStats.cache_creation_tokens b.per_model_stats
      ∧ b.token_counts.cache_read_tokens
          = statsSum ModelStats.cache_read_tokens b.per_model_stats) := by
  intro entries now _hsorted b hb
  unfold SessionAnalyzer.transform_to_blocks at hb
  by_cases hne : entries = []
  · rw [if_pos hne] at hb
    cases hb
  · rw [if_neg hne] at hb
    have hdelta : (3600 : Int) ≤ SessionAnalyzer.session_delta 5 := by
      unfold SessionAnalyzer.session_delta
      norm_num
    exact mark_active_ResultOk now _ _
      (processEntries_ok _ hdelta entries [] none (by intro x hx; cases hx)
        (by intro x hx; cases hx))
      b hb

/-- Witness for C2: the sorted singleton entry list at timestamp 37800. -/
theorem c2_window_witness :
    ((SessionAnalyzer.transform_to_blocks 5 0
        [{ timestamp := 37800, input_tokens := 100, output_tokens := 50,
           cache_creation_tokens := 3, cache_read_tokens := 4, cost_usd := 0,
           model := "claude-3-5-sonnet", message_id := "m", request_id := "r" }]).filter
        (fun b => !b.is_gap)).all
      (fun b =>
        b.end_time == b.start_time + SessionAnalyzer.session_delta 5
          && b.token_counts.input_tokens == statsSum ModelStats.input_tokens b.per_model_stats)
      = true := by
  rw [List.all_eq_true]
  intro b hb
  have hmem := List.mem_of_mem_filter hb
  have hflag : b.is_gap = false := by
    have := (List.mem_filter.mp hb).2
    simpa using this
  have hprops := c2_window_invariants _ 0
    (List.chain'_singleton _) b hmem hflag
  rw [Bool.and_eq_true, beq_iff_eq, beq_iff_eq]
  exact ⟨hprops.1, hprops.2.2.1⟩

/-! ## C1 — gap-window placement -/

/-- C1 evaluation at the failing input: two entries at Unix times 36000
(10:00) and 72000 (20:00), a 10-hour silence against a 5-hour window.
The synthetic gap window (flagged, zero records, spanning
`[closed.actual_end, next.timestamp] = [36000, 72000]`) is pushed *before*
the closed window, so the output order is `[gap, closed, new]` — the gap
does not appear between the closed window and the newly opened one as the
claim (and the analyzer's own doc comment) states. -/
theorem c1_gap_position :
    (SessionAnalyzer.transform_to_blocks 5 1000000000
        [{ timestamp := 36000, input_tokens := 100, output_tokens := 50,
           cache_creation_tokens := 0, cache_read_tokens := 0, cost_usd := 0,
           model := "claude-3-5-sonnet", message_id := "m1", request_id := "r1" },
         { timestamp := 72000, input_tokens := 200, output_tokens := 100,
           cache_creation_tokens := 0, cache_read_tokens := 0, cost_usd := 0,
           model := "claude-3-5-sonnet", message_id := "m2", request_id := "r2" }]).map
        (fun b => (b.is_gap, b.start_time, b.end_time, b.entries.length))
      = [(true, 36000, 72000, 0), (false, 36000, 54000, 1), (false, 72000, 90000, 1)] := by
  decide

end Monitor
